import Mathlib

/-!
Verification of the digilogic interaction state machine (`src/ux/input.c`)
and view/layout engine (`src/view/view.c`) against the natural-language
specification.

Coordinates are modelled over `ℚ` (the C code uses `float`; the claims under
study are structural branch/arithmetic facts, not rounding facts).
-/

namespace Digilogic

/-- 2D vector, mirroring `HMM_Vec2` from handmade_math. -/
structure Vec2 where
  x : ℚ
  y : ℚ
deriving DecidableEq, Repr

/-- `HMM_V2` constructor. -/
def HMM_V2 (x y : ℚ) : Vec2 := ⟨x, y⟩

/-- `HMM_AddV2`. -/
def HMM_AddV2 (a b : Vec2) : Vec2 := ⟨a.x + b.x, a.y + b.y⟩

/-- `HMM_SubV2`. -/
def HMM_SubV2 (a b : Vec2) : Vec2 := ⟨a.x - b.x, a.y - b.y⟩

/-- `HMM_LenSqrV2`. -/
def HMM_LenSqrV2 (a : Vec2) : ℚ := a.x * a.x + a.y * a.y

/-- `HMM_DivV2F`: componentwise division by a scalar. -/
def HMM_DivV2F (a : Vec2) (s : ℚ) : Vec2 := ⟨a.x / s, a.y / s⟩

/-- Axis-aligned box with center and half-size, mirroring `Box` from core. -/
structure Box where
  center : Vec2
  halfSize : Vec2
deriving DecidableEq, Repr

/-- Entity id handle (`ID`): a tagged handle with a reserved no-id sentinel. -/
inductive EntityID
  | none
  | component (i : Nat)
  | port (i : Nat)
  | waypoint (i : Nat)
deriving DecidableEq, Repr

/-- The `MouseDownState` enum of `src/ux/input.c`. -/
inductive MouseDownState
  | up
  | down
  | pan
  | click
  | deselect
  | selectArea
  | selectOne
  | moveSelection
  | clickPort
  | dragWiring
  | startClickWiring
  | clickWiring
  | connectPort
  | floatingWire
  | addingComponent
  | addComponent
deriving DecidableEq, Repr, Fintype

/--
One evaluation of the transition `switch` inside `ux_mouse_down_state_machine`
(src/ux/input.c lines 91-198).  `leftDown`, `rightDown`, `overPort`,
`overItem` are computed once per call (lines 54-57).  `distGt` abstracts the
comparison `HMM_LenV2(worldMousePos - downStart) > MOVE_THRESHOLD / zoom`
(lines 62-64); `move` is its conjunction with `leftDown` exactly as in the
source.  `selected` abstracts `arrlen(selected) > 0 || lenSqr(selectionBox) >
0` (lines 65-66) and `inSelection` the selection hit test (lines 68-87);
these are recomputed each loop iteration in the source, hence passed afresh
per evaluation.
-/
def mouse_down_next_state (s : MouseDownState)
    (leftDown rightDown overPort overItem distGt selected inSelection : Bool) :
    MouseDownState :=
  let move := leftDown && distGt
  match s with
  | .up =>
    if leftDown then
      if inSelection then .moveSelection
      else if overPort then .clickPort
      else if overItem then .selectOne
      else .down
    else if rightDown then .pan
    else .up
  | .pan => if !rightDown then .up else .pan
  | .down =>
    if !leftDown then
      if selected then .deselect else .click
    else if move && !selected then .selectArea
    else .down
  | .click => if !leftDown then .up else .click
  | .deselect => if !leftDown then .up else .deselect
  | .selectArea => if !leftDown then .up else .selectArea
  | .selectOne =>
    if !leftDown then .up
    else if move then .moveSelection
    else .selectOne
  | .moveSelection => if !leftDown then .up else .moveSelection
  | .clickPort =>
    if leftDown then .startClickWiring
    else if move then .dragWiring
    else .clickPort
  | .dragWiring =>
    if overPort && !leftDown then .connectPort
    else if !overPort && !leftDown then .floatingWire
    else .dragWiring
  | .startClickWiring => if !leftDown then .clickWiring else .startClickWiring
  | .clickWiring =>
    if leftDown then
      if overPort then .connectPort else .floatingWire
    else .clickWiring
  | .connectPort => if !leftDown then .up else .connectPort
  | .floatingWire => if !leftDown then .up else .floatingWire
  | .addingComponent => if leftDown then .addComponent else .addingComponent
  | .addComponent => if !leftDown then .addingComponent else .addComponent

/--
Rank function used to show the re-evaluation loop of
`ux_mouse_down_state_machine` terminates: with the per-call button snapshot
fixed, every state change strictly decreases the rank, whatever the
selection-dependent predicates do.
-/
def mdRank (leftDown rightDown : Bool) : MouseDownState → Nat
  | .up => if leftDown then 2 else if rightDown then 1 else 0
  | .pan => if rightDown then 0 else if leftDown then 3 else 1
  | .down => if leftDown then 1 else 3
  | .click => if leftDown then 0 else 2
  | .deselect => if leftDown then 0 else 2
  | .selectArea => if leftDown then 0 else 2
  | .selectOne => if leftDown then 1 else 2
  | .moveSelection => if leftDown then 0 else 2
  | .clickPort => if leftDown then 1 else 0
  | .dragWiring => if leftDown then 0 else 3
  | .startClickWiring => if leftDown then 0 else 1
  | .clickWiring => if leftDown then 1 else 0
  | .connectPort => if leftDown then 0 else 2
  | .floatingWire => if leftDown then 0 else 2
  | .addingComponent => if leftDown then 1 else 0
  | .addComponent => if leftDown then 0 else 1

theorem mdRank_le_three (l r : Bool) (s : MouseDownState) : mdRank l r s ≤ 3 := by
  revert l r; cases s <;> decide

theorem mdRank_decreases (s : MouseDownState)
    (l r op oi d sel ins : Bool) :
    mouse_down_next_state s l r op oi d sel ins = s ∨
      mdRank l r (mouse_down_next_state s l r op oi d sel ins) < mdRank l r s := by
  revert l r op oi d sel ins; cases s <;> decide

/--
The chained re-evaluation: iterate the transition function from `s0`, with
the button/hover snapshot (`l`, `r`, `op`, `oi`) fixed for the whole call and
the mutable predicates (`distGt`, `selected`, `inSelection`) allowed to
change arbitrarily between iterations — modelling the fact that enter/exit
actions mutate `downStart`, the selection list and the selection box which
those predicates read.
-/
def mdChain (l r op oi : Bool) (var : Nat → Bool × Bool × Bool)
    (s0 : MouseDownState) : Nat → MouseDownState
  | 0 => s0
  | k + 1 =>
    mouse_down_next_state (mdChain l r op oi var s0 k) l r op oi
      (var k).1 (var k).2.1 (var k).2.2

theorem mdChain_shift (l r op oi : Bool) (var : Nat → Bool × Bool × Bool)
    (s0 : MouseDownState) (k : Nat) :
    mdChain l r op oi var s0 (k + 1) =
      mdChain l r op oi (fun i => var (i + 1))
        (mouse_down_next_state s0 l r op oi (var 0).1 (var 0).2.1 (var 0).2.2) k := by
  induction k with
  | zero => rfl
  | succ k ih =>
    show mouse_down_next_state (mdChain l r op oi var s0 (k + 1)) l r op oi
        (var (k + 1)).1 (var (k + 1)).2.1 (var (k + 1)).2.2 = _
    rw [ih]
    rfl

theorem mdChain_reaches_fixpoint_aux (l r op oi : Bool) :
    ∀ (n : Nat) (s0 : MouseDownState) (var : Nat → Bool × Bool × Bool),
      mdRank l r s0 ≤ n →
      ∃ k ≤ n,
        mouse_down_next_state (mdChain l r op oi var s0 k) l r op oi
            (var k).1 (var k).2.1 (var k).2.2 =
          mdChain l r op oi var s0 k := by
  intro n
  induction n with
  | zero =>
    intro s0 var hrank
    refine ⟨0, Nat.le_refl 0, ?_⟩
    rcases mdRank_decreases s0 l r op oi (var 0).1 (var 0).2.1 (var 0).2.2 with h | h
    · exact h
    · omega
  | succ n ih =>
    intro s0 var hrank
    rcases mdRank_decreases s0 l r op oi (var 0).1 (var 0).2.1 (var 0).2.2 with h | h
    · exact ⟨0, Nat.zero_le _, h⟩
    · have hrank' :
          mdRank l r
            (mouse_down_next_state s0 l r op oi (var 0).1 (var 0).2.1 (var 0).2.2) ≤ n := by
        omega
      obtain ⟨k, hk, hfix⟩ :=
        ih (mouse_down_next_state s0 l r op oi (var 0).1 (var 0).2.1 (var 0).2.2)
          (fun i => var (i + 1)) hrank'
      refine ⟨k + 1, by omega, ?_⟩
      rw [mdChain_shift]
      exact hfix

/--
C3: for every machine state and every fixed per-call snapshot of the button
and hover flags, the re-evaluation loop of `ux_mouse_down_state_machine`
reaches a state that maps to itself after at most 3 chained transitions,
even when the selection-dependent predicates (`distGt`/`move`, `selected`,
`inSelection`) change arbitrarily between iterations because the enter/exit
actions mutate the selection state they read.
-/
theorem mouse_down_state_machine_terminates (l r op oi : Bool)
    (var : Nat → Bool × Bool × Bool) (s0 : MouseDownState) :
    ∃ k ≤ 3,
      mouse_down_next_state (mdChain l r op oi var s0 k) l r op oi
          (var k).1 (var k).2.1 (var k).2.2 =
        mdChain l r op oi var s0 k :=
  mdChain_reaches_fixpoint_aux l r op oi 3 s0 var (mdRank_le_three l r s0)

/--
C1: the code contradicts the claimed `ClickPort → DragWiring` transition.
In `ux_mouse_down_state_machine`, `move` is `leftDown && dist > threshold`
(src/ux/input.c line 62-64), while the `STATE_DRAG_WIRING` branch (line 153)
is only reached when `leftDown` is false — so releasing the left button after
moving keeps the machine in `ClickPort`, and `STATE_DRAG_WIRING` is
unreachable from any state other than itself.  A left press in `ClickPort`
does go to `StartClickWiring`.
-/
theorem clickPort_never_reaches_dragWiring :
    mouse_down_next_state .clickPort false false true false true true false =
        .clickPort ∧
    (∀ l r op oi d sel ins : Bool,
      mouse_down_next_state .clickPort l r op oi d sel ins ≠ .dragWiring) ∧
    (∀ (s : MouseDownState) (l r op oi d sel ins : Bool),
      mouse_down_next_state s l r op oi d sel ins ≠ .dragWiring ∨
        s = .dragWiring) ∧
    (∀ r op oi d sel ins : Bool,
      mouse_down_next_state .clickPort true r op oi d sel ins =
        .startClickWiring) := by
  refine ⟨rfl, by decide, ?_, by decide⟩
  intro s
  revert s; decide

/-- `UndoCommand`: verb plus verb-specific payload (core undo log contract). -/
inductive UndoCommand
  | undoAddComponent (itemID : EntityID) (descID : Nat) (newCenter : Vec2)
  | undoSelectItem (itemID : EntityID)
  | undoDeselectItem (itemID : EntityID)
  | undoSelectArea (area : Box)
  | undoDeselectArea (area : Box)
  | undoMoveSelection (oldCenter newCenter : Vec2) (snap : Bool)
deriving DecidableEq, Repr

/--
Modelled from the spec: the undo/redo log (`ux_do`) is an external
collaborator whose code is not under src/; per the spec it "issues deselect
commands for every currently selected item ... processed in reverse of
current order so deselecting is well-defined as a stack pop", i.e. applying
a deselect-item command removes that item from the selection set.
-/
def apply_deselect_item (sel : List EntityID) (id : EntityID) : List EntityID :=
  sel.filter (fun x => x != id)

theorem apply_deselect_item_length_lt (sel : List EntityID) (id : EntityID)
    (h : id ∈ sel) : (apply_deselect_item sel id).length < sel.length := by
  induction sel with
  | nil => cases h
  | cons b t ih =>
    by_cases hb : b = id
    · subst hb
      have : apply_deselect_item (b :: t) b = apply_deselect_item t b := by
        simp [apply_deselect_item]
      rw [this]
      calc (apply_deselect_item t b).length ≤ t.length :=
            List.length_filter_le _ t
        _ < (b :: t).length := by simp
    · have hmem : id ∈ t := by
        rcases List.mem_cons.mp h with h' | h'
        · exact absurd h'.symm hb
        · exact h'
      have : apply_deselect_item (b :: t) id = b :: apply_deselect_item t id := by
        simp [apply_deselect_item, hb]
      rw [this]
      simpa using ih hmem

/--
The `while (arrlen(ux->view.selected) > 0)` loop of the `STATE_SELECT_ONE`
/ `STATE_DESELECT` enter action (src/ux/input.c lines 243-250): each pass
issues a deselect-item command targeting the current last element of the
selection, whose (spec-modelled) effect removes that element.  Returns the
issued commands in order together with the final selection list.
-/
def deselect_loop (sel : List EntityID) : List UndoCommand × List EntityID :=
  if h : sel ≠ [] then
    let id := sel.getLast h
    let result := deselect_loop (apply_deselect_item sel id)
    (UndoCommand.undoDeselectItem id :: result.1, result.2)
  else ([], sel)
termination_by sel.length
decreasing_by
  exact apply_deselect_item_length_lt sel (sel.getLast h) (List.getLast_mem h)

/--
Enter actions for `STATE_SELECT_ONE` and `STATE_DESELECT`
(src/ux/input.c lines 230-262): if the selection box has non-trivial area,
issue a single deselect-area command; otherwise, unless this is a
shift-modified `SelectOne`, run the per-item deselect loop; entering
`SelectOne` additionally issues a select command for the hovered item.
Returns the commands issued, in order.
-/
def enter_select_deselect (state : MouseDownState) (shift : Bool)
    (selectionBox : Box) (sel : List EntityID) (hovered : EntityID) :
    List UndoCommand :=
  (if HMM_LenSqrV2 selectionBox.halfSize > (1/1000 : ℚ) then
    [UndoCommand.undoDeselectArea selectionBox]
  else if state = MouseDownState.deselect ∨ shift = false then
    (deselect_loop sel).1
  else [])
  ++ (if state = MouseDownState.selectOne then
        [UndoCommand.undoSelectItem hovered]
      else [])

theorem deselect_loop_nodup (sel : List EntityID) (hnodup : sel.Nodup) :
    deselect_loop sel = (sel.reverse.map UndoCommand.undoDeselectItem, []) := by
  induction sel using List.reverseRecOn with
  | nil => simp [deselect_loop]
  | append_singleton l a ih =>
    have hne : l ++ [a] ≠ [] := by simp
    have hlast : (l ++ [a]).getLast hne = a := by
      simp [List.getLast_append]
    have hnl : l.Nodup := (List.nodup_append.mp hnodup).1
    have hna : a ∉ l := by
      intro hmem
      have hdisj := (List.nodup_append.mp hnodup).2.2
      exact hdisj hmem (by simp)
    have hfilter : apply_deselect_item (l ++ [a]) a = l := by
      unfold apply_deselect_item
      rw [List.filter_append]
      have h1 : l.filter (fun x => x != a) = l := by
        apply List.filter_eq_self.mpr
        intro x hx
        simp only [bne_iff_ne, ne_eq, decide_eq_true_eq]
        intro hxa
        exact hna (hxa ▸ hx)
      have h2 : [a].filter (fun x => x != a) = [] := by simp
      rw [h1, h2, List.append_nil]
    rw [deselect_loop]
    simp only [hne, dite_true, hlast, hfilter, ih hnl]
    simp

/--
C5: on entering `Deselect`, or entering `SelectOne` without shift, with a
trivial-area selection box, the enter action issues exactly one deselect-item
command per selected item, in reverse of the current order (stack pop),
looping until the selection is empty; with a non-trivial-area box it issues a
single deselect-area command carrying that box and no per-item commands.
-/
theorem enter_select_deselect_spec (shift : Bool) (box : Box)
    (sel : List EntityID) (hovered : EntityID) (hnodup : sel.Nodup) :
    (HMM_LenSqrV2 box.halfSize ≤ 1/1000 →
      enter_select_deselect .deselect shift box sel hovered =
        sel.reverse.map UndoCommand.undoDeselectItem ∧
      enter_select_deselect .selectOne false box sel hovered =
        sel.reverse.map UndoCommand.undoDeselectItem ++
          [UndoCommand.undoSelectItem hovered] ∧
      (deselect_loop sel).2 = []) ∧
    (HMM_LenSqrV2 box.halfSize > 1/1000 →
      enter_select_deselect .deselect shift box sel hovered =
        [UndoCommand.undoDeselectArea box] ∧
      enter_select_deselect .selectOne false box sel hovered =
        [UndoCommand.undoDeselectArea box, UndoCommand.undoSelectItem hovered]) := by
  have hloop := deselect_loop_nodup sel hnodup
  constructor
  · intro hle
    have hnot : ¬ HMM_LenSqrV2 box.halfSize > (1/1000 : ℚ) := not_lt.mpr hle
    refine ⟨?_, ?_, ?_⟩
    · unfold enter_select_deselect
      rw [if_neg hnot, if_pos (Or.inl rfl), if_neg (by decide), hloop,
        List.append_nil]
    · unfold enter_select_deselect
      rw [if_neg hnot, if_pos (Or.inr rfl), if_pos rfl, hloop]
    · rw [hloop]
  · intro hgt
    constructor
    · unfold enter_select_deselect
      rw [if_pos hgt, if_neg (by decide), List.append_nil]
    · unfold enter_select_deselect
      rw [if_pos hgt, if_pos rfl]
      rfl

/-- Witness for C5 at a concrete selection and both box shapes. -/
theorem enter_select_deselect_spec_witness :
    enter_select_deselect .deselect true ⟨⟨0, 0⟩, ⟨0, 0⟩⟩
        [.component 1, .component 2] .none =
      [.undoDeselectItem (.component 2), .undoDeselectItem (.component 1)] ∧
    enter_select_deselect .selectOne false ⟨⟨0, 0⟩, ⟨1, 1⟩⟩
        [.component 1, .component 2] (.component 3) =
      [.undoDeselectArea ⟨⟨0, 0⟩, ⟨1, 1⟩⟩, .undoSelectItem (.component 3)] := by
  constructor
  · have h := (enter_select_deselect_spec true ⟨⟨0, 0⟩, ⟨0, 0⟩⟩
        [.component 1, .component 2] .none (by decide)).1
        (by norm_num [HMM_LenSqrV2])
    simpa using h.1
  · have h := (enter_select_deselect_spec false ⟨⟨0, 0⟩, ⟨1, 1⟩⟩
        [.component 1, .component 2] (.component 3) (by decide)).2
        (by norm_num [HMM_LenSqrV2])
    exact h.2

/--
The `STATE_MOVE_SELECTION` continuous-update action
(src/ux/input.c lines 277-292): compute the delta from the drag-start anchor,
and when its squared length exceeds `0.01`, issue a move-selection command
with `oldCenter` the current selection center, `newCenter = oldCenter +
delta`, and `snap` true exactly when ctrl is not held.
-/
def move_selection_update (worldMousePos downStart selectionCenter : Vec2)
    (ctrl : Bool) : Option UndoCommand :=
  let delta := HMM_SubV2 worldMousePos downStart
  let oldCenter := selectionCenter
  let newCenter := HMM_AddV2 oldCenter delta
  if HMM_LenSqrV2 delta > (1/100 : ℚ) then
    some (UndoCommand.undoMoveSelection oldCenter newCenter (!ctrl))
  else none

/--
C6: while in `MoveSelection`, a move-selection command is issued iff the
squared length of `delta = worldMousePos - downStart` exceeds the threshold,
and when issued it carries `oldCenter` = current selection center,
`newCenter = oldCenter + delta`, and `snap = !ctrl`.
-/
theorem move_selection_update_spec (pos ds center : Vec2) (ctrl : Bool) :
    (HMM_LenSqrV2 (HMM_SubV2 pos ds) > 1/100 →
      move_selection_update pos ds center ctrl =
        some (UndoCommand.undoMoveSelection center
          (HMM_AddV2 center (HMM_SubV2 pos ds)) (!ctrl))) ∧
    (HMM_LenSqrV2 (HMM_SubV2 pos ds) ≤ 1/100 →
      move_selection_update pos ds center ctrl = none) := by
  constructor
  · intro h
    unfold move_selection_update
    rw [if_pos h]
  · intro h
    unfold move_selection_update
    rw [if_neg (not_lt.mpr h)]

/-- Witness for C6 at concrete positions, both over and under the threshold. -/
theorem move_selection_update_spec_witness :
    move_selection_update ⟨1, 0⟩ ⟨0, 0⟩ ⟨5, 5⟩ false =
      some (UndoCommand.undoMoveSelection ⟨5, 5⟩ ⟨6, 5⟩ true) ∧
    move_selection_update ⟨0, 0⟩ ⟨0, 0⟩ ⟨5, 5⟩ false = none := by
  constructor
  · have h := (move_selection_update_spec ⟨1, 0⟩ ⟨0, 0⟩ ⟨5, 5⟩ false).1
      (by norm_num [HMM_LenSqrV2, HMM_SubV2])
    rw [h]
    norm_num [HMM_AddV2, HMM_SubV2]
  · exact (move_selection_update_spec ⟨0, 0⟩ ⟨0, 0⟩ ⟨5, 5⟩ false).2
      (by norm_num [HMM_LenSqrV2, HMM_SubV2])

/--
The component-deletion callback `view_component_deleted`
(src/view/view.c lines 168-176): scan the selection, delete the first
matching entry, and stop.
-/
def view_component_deleted (sel : List EntityID) (id : EntityID) :
    List EntityID :=
  match sel with
  | [] => []
  | x :: rest => if x = id then rest else x :: view_component_deleted rest id

/--
The waypoint-deletion callback `view_waypoint_deleted`
(src/view/view.c lines 178-186), identical in body to the component one.
-/
def view_waypoint_deleted (sel : List EntityID) (id : EntityID) :
    List EntityID :=
  match sel with
  | [] => []
  | x :: rest => if x = id then rest else x :: view_waypoint_deleted rest id

theorem view_component_deleted_purges (sel : List EntityID) (id : EntityID)
    (hnodup : sel.Nodup) :
    id ∉ view_component_deleted sel id ∧
    (∀ y, y ≠ id → (y ∈ view_component_deleted sel id ↔ y ∈ sel)) := by
  induction sel with
  | nil => exact ⟨by simp [view_component_deleted], by simp [view_component_deleted]⟩
  | cons x rest ih =>
    have hx : x ∉ rest := (List.nodup_cons.mp hnodup).1
    have hrest : rest.Nodup := (List.nodup_cons.mp hnodup).2
    by_cases hxid : x = id
    · subst hxid
      constructor
      · simpa [view_component_deleted] using hx
      · intro y hy
        simp [view_component_deleted, List.mem_cons, hy]
    · obtain ⟨ih1, ih2⟩ := ih hrest
      constructor
      · simp only [view_component_deleted, hxid, if_false, List.mem_cons]
        rintro (h | h)
        · exact hxid h.symm
        · exact ih1 h
      · intro y hy
        simp only [view_component_deleted, hxid, if_false, List.mem_cons]
        rw [ih2 y hy]

theorem view_waypoint_deleted_eq_component (sel : List EntityID)
    (id : EntityID) :
    view_waypoint_deleted sel id = view_component_deleted sel id := by
  induction sel with
  | nil => rfl
  | cons x rest ih =>
    simp only [view_waypoint_deleted, view_component_deleted, ih]

/--
C7: for a component or waypoint deletion, the registered deletion callback
removes the deleted entity's id from the selection set: afterwards the
selection contains no reference to the deleted entity (given the selection's
set invariant: no duplicate ids), and every other id is untouched.
-/
theorem deletion_callbacks_purge_selection (sel : List EntityID)
    (id : EntityID) (hnodup : sel.Nodup) :
    id ∉ view_component_deleted sel id ∧
    id ∉ view_waypoint_deleted sel id ∧
    (∀ y, y ≠ id → (y ∈ view_component_deleted sel id ↔ y ∈ sel)) ∧
    (∀ y, y ≠ id → (y ∈ view_waypoint_deleted sel id ↔ y ∈ sel)) := by
  obtain ⟨h1, h2⟩ := view_component_deleted_purges sel id hnodup
  rw [view_waypoint_deleted_eq_component]
  exact ⟨h1, h1, h2, h2⟩

/-- Witness for C7 at a concrete selection. -/
theorem deletion_callbacks_purge_selection_witness :
    EntityID.waypoint 2 ∉
      view_component_deleted
        [.component 1, .waypoint 2, .component 3] (.waypoint 2) ∧
    (EntityID.component 3 ∈
      view_waypoint_deleted
        [.component 1, .waypoint 2, .component 3] (.waypoint 2) ↔
      EntityID.component 3 ∈
        ([.component 1, .waypoint 2, .component 3] : List EntityID)) := by
  have h := deletion_callbacks_purge_selection
    [.component 1, .waypoint 2, .component 3] (.waypoint 2) (by decide)
  exact ⟨h.1, h.2.2.2 (.component 3) (by decide)⟩

/--
Modelled from the spec: `box_intersect_box` is one of the core geometry
utilities ("boxes, intersection tests: pure functions, no state") whose code
is not under src/; two axis-aligned center/half-size boxes intersect when
they overlap on both axes.
-/
def box_intersect_box (a b : Box) : Bool :=
  decide (a.center.x - a.halfSize.x ≤ b.center.x + b.halfSize.x) &&
  decide (b.center.x - b.halfSize.x ≤ a.center.x + a.halfSize.x) &&
  decide (a.center.y - a.halfSize.y ≤ b.center.y + b.halfSize.y) &&
  decide (b.center.y - b.halfSize.y ≤ a.center.y + a.halfSize.y)

/-- A port as seen by the hover query: its `PortID` and its
component-relative position. -/
structure HPort where
  id : Nat
  position : Vec2
deriving DecidableEq, Repr

/-- A component as seen by the hover query: its box and its port list
(the `portFirst`/`compNext` intrusive chain, flattened). -/
structure HComponent where
  box : Box
  ports : List HPort
deriving DecidableEq, Repr

/-- The circuit data the hover query reads. -/
structure HCircuit where
  components : List HComponent
  waypoints : List Vec2
deriving DecidableEq, Repr

/-- `MOUSE_FUDGE` (src/ux/input.c line 30). -/
def MOUSE_FUDGE : ℚ := 3/2

/-- `MOUSE_WP_FUDGE` (src/ux/input.c line 31). -/
def MOUSE_WP_FUDGE : ℚ := 5

/-- The view state read and written by the per-frame hover computation. -/
structure UXView where
  components : List HComponent
  waypoints : List Vec2
  portWidth : ℚ
  worldMousePos : Vec2
  hovered : EntityID
  hoveredPort : Option Nat
deriving DecidableEq, Repr

/--
The hover computation of `ux_handle_mouse` (src/ux/input.c lines 329-370):
clear `hovered`/`hoveredPort`, build the mouse fudge box, then scan every
component (last intersecting component wins), every port of every component
(last intersecting port wins), and every waypoint (overriding the component
hover).  Only the `hovered`/`hoveredPort` fields are written.
-/
def ux_handle_mouse_hover (ux : UXView) : UXView :=
  let mouseBox : Box := ⟨ux.worldMousePos, HMM_V2 MOUSE_FUDGE MOUSE_FUDGE⟩
  let afterComponents : EntityID × Option Nat :=
    ux.components.enum.foldl
      (fun acc ic =>
        let hov :=
          if box_intersect_box ic.2.box mouseBox then EntityID.component ic.1
          else acc.1
        let hovPort :=
          ic.2.ports.foldl
            (fun hp port =>
              let portBox : Box :=
                ⟨HMM_AddV2 port.position ic.2.box.center,
                 HMM_V2 (ux.portWidth / 2) (ux.portWidth / 2)⟩
              if box_intersect_box portBox mouseBox then some port.id else hp)
            acc.2
        (hov, hovPort))
      (EntityID.none, Option.none)
  let afterWaypoints : EntityID :=
    ux.waypoints.enum.foldl
      (fun hov iw =>
        let waypointBox : Box := ⟨iw.2, HMM_V2 MOUSE_WP_FUDGE MOUSE_WP_FUDGE⟩
        if box_intersect_box waypointBox mouseBox then EntityID.waypoint iw.1
        else hov)
      afterComponents.1
  { ux with hovered := afterWaypoints, hoveredPort := afterComponents.2 }

/--
C9: the per-frame hover computation is idempotent: it clears and fully
recomputes `hovered` and `hoveredPort` from the pointer position, circuit and
theme — which it does not modify — so running it twice yields the same view
state (in particular the same hovered item id and hovered port id) as
running it once.
-/
theorem ux_handle_mouse_hover_idempotent (ux : UXView) :
    ux_handle_mouse_hover (ux_handle_mouse_hover ux) = ux_handle_mouse_hover ux := rfl

/-- A port as seen by the wire-geometry derivation: owning component index
and component-relative position. -/
structure WPort where
  component : Nat
  position : Vec2
deriving DecidableEq, Repr

/-- A component as seen by the wire-geometry derivation: its box center. -/
structure WComponent where
  center : Vec2
deriving DecidableEq, Repr

/-- An endpoint: its stored position (read by the centroid pass) and its
port reference. -/
structure WEndpoint where
  position : Vec2
  port : Nat
deriving DecidableEq, Repr

/-- A net: its waypoint positions in list order and its endpoint list. -/
structure WNet where
  waypoints : List Vec2
  endpoints : List WEndpoint
deriving DecidableEq, Repr

/-- The circuit data `view_direct_wire_nets` reads. -/
structure WCircuit where
  components : List WComponent
  ports : List WPort
  nets : List WNet
deriving DecidableEq, Repr

/-- A drawable wire: its vertex count into the shared vertex buffer. -/
structure Wire where
  vertexCount : Nat
deriving DecidableEq, Repr

/-- The per-net fields written by `view_direct_wire_nets` (view.c 250-253). -/
structure NetOut where
  wireOffset : Nat
  vertexOffset : Nat
  wireCount : Nat
deriving DecidableEq, Repr

/-- Endpoint position recomputation (view.c lines 309-314): owning-port
relative position plus owning-component box center. -/
def endpoint_pos (c : WCircuit) (ep : WEndpoint) : Vec2 :=
  let port := c.ports.getD ep.port ⟨0, HMM_V2 0 0⟩
  let component := c.components.getD port.component ⟨HMM_V2 0 0⟩
  HMM_AddV2 component.center port.position

/-- The centroid pass of `view_direct_wire_nets` (view.c lines 263-274):
sum the stored endpoint positions and divide by the count when nonzero. -/
def net_centroid (net : WNet) : Vec2 :=
  let centroidSum :=
    net.endpoints.foldl (fun acc ep => HMM_AddV2 acc ep.position) (HMM_V2 0 0)
  if 0 < net.endpoints.length then
    HMM_DivV2F centroidSum ((net.endpoints.length : ℚ))
  else centroidSum

/-- Waypoint synthesis (view.c lines 276-279): with no user waypoints and
more than two endpoints, a single waypoint at the centroid is synthesized. -/
def effective_waypoints (net : WNet) : List Vec2 :=
  if net.waypoints.length = 0 ∧ 2 < net.endpoints.length then [net_centroid net]
  else net.waypoints

/-- The nearest-waypoint search (view.c lines 317-326): start from the first
waypoint and keep the strictly closer one (by squared distance). -/
def nearest_waypoint (pos : Vec2) (waypoints : List Vec2) : Vec2 :=
  match waypoints with
  | [] => HMM_V2 0 0
  | w0 :: rest =>
    (rest.foldl
      (fun bw w =>
        let dist := HMM_LenSqrV2 (HMM_SubV2 pos w)
        if dist < bw.2 then (w, dist) else bw)
      (w0, HMM_LenSqrV2 (HMM_SubV2 pos w0))).1

/-- The endpoint loop of `view_direct_wire_nets` (view.c lines 305-343): per
endpoint, recompute its position; with more than two endpoints emit a
two-vertex wire to the nearest waypoint (pushing the waypoint then the
position), otherwise just push the position. -/
def endpoint_loop (c : WCircuit) (waypoints : List Vec2)
    (endpointCount : Nat) : List WEndpoint → List Wire × List Vec2
  | [] => ([], [])
  | ep :: rest =>
    let pos := endpoint_pos c ep
    let cur :=
      if 2 < endpointCount then
        ([Wire.mk 2], [nearest_waypoint pos waypoints, pos])
      else (([] : List Wire), [pos])
    let r := endpoint_loop c waypoints endpointCount rest
    (cur.1 ++ r.1, cur.2 ++ r.2)

/-- One iteration of the net loop of `view_direct_wire_nets`
(view.c lines 249-344): the wires and vertices emitted for one net, in
emission order (waypoint polyline wire, then the direct wire for ≤2
endpoints, then the per-endpoint wires; polyline vertices, then the
endpoint-loop vertices). -/
def view_direct_wire_net (c : WCircuit) (net : WNet) : List Wire × List Vec2 :=
  let endpointCount := net.endpoints.length
  let waypoints := effective_waypoints net
  let poly : List Wire × List Vec2 :=
    if 1 < waypoints.length then ([Wire.mk waypoints.length], waypoints)
    else ([], [])
  let debugDirect : List Wire :=
    if endpointCount ≤ 2 ∧ 0 < endpointCount then [Wire.mk endpointCount]
    else []
  let eps := endpoint_loop c waypoints endpointCount net.endpoints
  (poly.1 ++ debugDirect ++ eps.1, poly.2 ++ eps.2)

/-- The full `view_direct_wire_nets` pass (view.c lines 243-345): process the
nets in order, recording each net's wire offset, vertex offset (the counters
are incremented once per pushed wire/vertex, so they advance by the emitted
lengths) and wire count, and appending to the shared wire/vertex buffers. -/
def view_direct_wire_nets_go (c : WCircuit) :
    List WNet → Nat → Nat → List NetOut × List Wire × List Vec2
  | [], _, _ => ([], [], [])
  | net :: rest, wireOffset, vertexOffset =>
    let emitted := view_direct_wire_net c net
    let netOut : NetOut := ⟨wireOffset, vertexOffset, emitted.1.length⟩
    let r := view_direct_wire_nets_go c rest (wireOffset + emitted.1.length)
      (vertexOffset + emitted.2.length)
    (netOut :: r.1, emitted.1 ++ r.2.1, emitted.2 ++ r.2.2)

/-- `view_direct_wire_nets`, starting with empty buffers and zero offsets. -/
def view_direct_wire_nets (c : WCircuit) : List NetOut × List Wire × List Vec2 :=
  view_direct_wire_nets_go c c.nets 0 0

/--
C2: for a net with exactly 3 endpoints and no user waypoints,
`view_direct_wire_nets` synthesizes exactly one waypoint at the centroid of
the net's endpoint positions, and emits exactly 3 wires of 2 vertices each,
each wire consisting of that synthesized waypoint and one endpoint's
recomputed position (owning-port relative position plus owning-component
center).
-/
theorem three_endpoint_net_hub (c : WCircuit) (e1 e2 e3 : WEndpoint) :
    effective_waypoints ⟨[], [e1, e2, e3]⟩ =
      [net_centroid ⟨[], [e1, e2, e3]⟩] ∧
    net_centroid ⟨[], [e1, e2, e3]⟩ =
      HMM_DivV2F
        (HMM_AddV2 (HMM_AddV2 (HMM_AddV2 (HMM_V2 0 0) e1.position)
          e2.position) e3.position) ((3 : Nat) : ℚ) ∧
    view_direct_wire_net c ⟨[], [e1, e2, e3]⟩ =
      ([Wire.mk 2, Wire.mk 2, Wire.mk 2],
       [net_centroid ⟨[], [e1, e2, e3]⟩, endpoint_pos c e1,
        net_centroid ⟨[], [e1, e2, e3]⟩, endpoint_pos c e2,
        net_centroid ⟨[], [e1, e2, e3]⟩, endpoint_pos c e3]) := by
  refine ⟨rfl, rfl, ?_⟩
  show (_, _) = _
  simp only [view_direct_wire_net, effective_waypoints, endpoint_loop]
  norm_num [nearest_waypoint]

/--
C8: a net with zero endpoints produces nothing degenerate: the centroid
division is skipped (the guarded centroid is just the zero sum), no direct
wire is emitted, any emitted wire is the waypoint polyline, and with fewer
than two waypoints the net contributes zero wires and zero vertices.
-/
theorem zero_endpoint_net_safe (c : WCircuit) (wps : List Vec2) :
    net_centroid ⟨wps, []⟩ = HMM_V2 0 0 ∧
    (view_direct_wire_net c ⟨wps, []⟩).1.length ≤ 1 ∧
    (∀ w ∈ (view_direct_wire_net c ⟨wps, []⟩).1, w.vertexCount = wps.length) ∧
    (wps.length < 2 → view_direct_wire_net c ⟨wps, []⟩ = ([], [])) := by
  have hw : effective_waypoints ⟨wps, []⟩ = wps := by
    simp [effective_waypoints]
  by_cases h1 : 1 < wps.length
  · refine ⟨rfl, ?_, ?_, ?_⟩
    · simp [view_direct_wire_net, hw, h1, endpoint_loop]
    · intro w hmem
      simp [view_direct_wire_net, hw, h1, endpoint_loop] at hmem
      simp [hmem]
    · intro h2
      omega
  · refine ⟨rfl, ?_, ?_, ?_⟩
    · simp [view_direct_wire_net, hw, h1, endpoint_loop]
    · intro w hmem
      simp [view_direct_wire_net, hw, h1, endpoint_loop] at hmem
    · intro _
      simp [view_direct_wire_net, hw, h1, endpoint_loop]

/-- Witness for C8: a single-waypoint, zero-endpoint net contributes nothing;
a two-waypoint, zero-endpoint net contributes only the waypoint polyline. -/
theorem zero_endpoint_net_safe_witness :
    view_direct_wire_net ⟨[], [], []⟩ ⟨[⟨0, 0⟩], []⟩ = ([], []) ∧
    (Wire.mk 2).vertexCount = ([⟨0, 0⟩, ⟨2, 2⟩] : List Vec2).length := by
  constructor
  · exact (zero_endpoint_net_safe ⟨[], [], []⟩ [⟨0, 0⟩]).2.2.2 (by decide)
  · exact (zero_endpoint_net_safe ⟨[], [], []⟩ [⟨0, 0⟩, ⟨2, 2⟩]).2.2.1
      (Wire.mk 2) (by decide)

/-- Sum of the per-wire vertex counts of a wire list. -/
def wires_vertex_total (ws : List Wire) : Nat :=
  (ws.map (fun w => w.vertexCount)).sum

theorem endpoint_loop_lengths (c : WCircuit) (wps : List Vec2) (ec : Nat) :
    ∀ eps : List WEndpoint,
      wires_vertex_total (endpoint_loop c wps ec eps).1 =
        (if 2 < ec then 2 * eps.length else 0) ∧
      (endpoint_loop c wps ec eps).2.length =
        (if 2 < ec then 2 * eps.length else eps.length) := by
  intro eps
  induction eps with
  | nil => simp [endpoint_loop, wires_vertex_total]
  | cons ep rest ih =>
    by_cases h : 2 < ec <;>
      simp [endpoint_loop, wires_vertex_total, h] at ih ⊢ <;> omega

theorem view_direct_wire_net_vertex_total (c : WCircuit) (net : WNet) :
    wires_vertex_total (view_direct_wire_net c net).1 =
      (view_direct_wire_net c net).2.length := by
  obtain ⟨hep1, hep2⟩ := endpoint_loop_lengths c (effective_waypoints net)
    net.endpoints.length net.endpoints
  simp only [wires_vertex_total] at hep1
  by_cases h2 : 2 < net.endpoints.length
  · rw [if_pos h2] at hep1 hep2
    have hB : ¬(net.endpoints.length ≤ 2 ∧ 0 < net.endpoints.length) := by
      omega
    by_cases hA : 1 < (effective_waypoints net).length
    · simp only [view_direct_wire_net, if_pos hA, if_neg hB,
        wires_vertex_total, List.map_append, List.sum_append,
        List.length_append, List.map_cons, List.sum_cons, List.map_nil,
        List.sum_nil, List.length_nil, List.nil_append, List.append_nil]
      omega
    · simp only [view_direct_wire_net, if_neg hA, if_neg hB,
        wires_vertex_total, List.map_append, List.sum_append,
        List.length_append, List.map_cons, List.sum_cons, List.map_nil,
        List.sum_nil, List.length_nil, List.nil_append, List.append_nil]
      omega
  · rw [if_neg h2] at hep1 hep2
    by_cases h0 : 0 < net.endpoints.length
    · have hB : net.endpoints.length ≤ 2 ∧ 0 < net.endpoints.length := by
        omega
      by_cases hA : 1 < (effective_waypoints net).length
      · simp only [view_direct_wire_net, if_pos hA, if_pos hB,
          wires_vertex_total, List.map_append, List.sum_append,
          List.length_append, List.map_cons, List.sum_cons, List.map_nil,
          List.sum_nil, List.length_nil, List.nil_append, List.append_nil]
        omega
      · simp only [view_direct_wire_net, if_neg hA, if_pos hB,
          wires_vertex_total, List.map_append, List.sum_append,
          List.length_append, List.map_cons, List.sum_cons, List.map_nil,
          List.sum_nil, List.length_nil, List.nil_append, List.append_nil]
        omega
    · have hB : ¬(net.endpoints.length ≤ 2 ∧ 0 < net.endpoints.length) := by
        omega
      by_cases hA : 1 < (effective_waypoints net).length
      · simp only [view_direct_wire_net, if_pos hA, if_neg hB,
          wires_vertex_total, List.map_append, List.sum_append,
          List.length_append, List.map_cons, List.sum_cons, List.map_nil,
          List.sum_nil, List.length_nil, List.nil_append, List.append_nil]
        omega
      · simp only [view_direct_wire_net, if_neg hA, if_neg hB,
          wires_vertex_total, List.map_append, List.sum_append,
          List.length_append, List.map_cons, List.sum_cons, List.map_nil,
          List.sum_nil, List.length_nil, List.nil_append, List.append_nil]
        omega

/-- Total wires emitted for the first `i` nets of the circuit. -/
def nets_wires_before (c : WCircuit) (i : Nat) : Nat :=
  ((c.nets.take i).map (fun n => (view_direct_wire_net c n).1.length)).sum

/-- Total vertices emitted for the first `i` nets of the circuit. -/
def nets_verts_before (c : WCircuit) (i : Nat) : Nat :=
  ((c.nets.take i).map (fun n => (view_direct_wire_net c n).2.length)).sum

theorem view_direct_wire_nets_go_len (c : WCircuit) :
    ∀ (nets : List WNet) (wo vo : Nat),
      (view_direct_wire_nets_go c nets wo vo).1.length = nets.length := by
  intro nets
  induction nets with
  | nil => intro wo vo; rfl
  | cons net rest ih =>
    intro wo vo
    simp only [view_direct_wire_nets_go, List.length_cons, ih]

theorem view_direct_wire_nets_go_wires (c : WCircuit) :
    ∀ (nets : List WNet) (wo vo : Nat),
      (view_direct_wire_nets_go c nets wo vo).2.1 =
        (nets.map (fun n => (view_direct_wire_net c n).1)).flatten := by
  intro nets
  induction nets with
  | nil => intro wo vo; rfl
  | cons net rest ih =>
    intro wo vo
    simp only [view_direct_wire_nets_go, List.map_cons, List.flatten_cons, ih]

theorem view_direct_wire_nets_go_verts (c : WCircuit) :
    ∀ (nets : List WNet) (wo vo : Nat),
      (view_direct_wire_nets_go c nets wo vo).2.2 =
        (nets.map (fun n => (view_direct_wire_net c n).2)).flatten := by
  intro nets
  induction nets with
  | nil => intro wo vo; rfl
  | cons net rest ih =>
    intro wo vo
    simp only [view_direct_wire_nets_go, List.map_cons, List.flatten_cons, ih]

theorem view_direct_wire_nets_go_getElem (c : WCircuit) :
    ∀ (nets : List WNet) (wo vo i : Nat), i < nets.length →
      (view_direct_wire_nets_go c nets wo vo).1[i]? =
        some ⟨wo + ((nets.take i).map
                (fun n => (view_direct_wire_net c n).1.length)).sum,
              vo + ((nets.take i).map
                (fun n => (view_direct_wire_net c n).2.length)).sum,
              (view_direct_wire_net c (nets.getD i ⟨[], []⟩)).1.length⟩ := by
  intro nets
  induction nets with
  | nil => intro wo vo i hi; simp at hi
  | cons net rest ih =>
    intro wo vo i hi
    cases i with
    | zero =>
      simp [view_direct_wire_nets_go]
    | succ i =>
      have hi' : i < rest.length := by simpa using hi
      have := ih (wo + (view_direct_wire_net c net).1.length)
        (vo + (view_direct_wire_net c net).2.length) i hi'
      simp only [view_direct_wire_nets_go, List.getElem?_cons_succ, this,
        List.take_succ_cons, List.map_cons, List.sum_cons, List.getD_cons_succ,
        Nat.add_assoc]

theorem prefix_getD_le_sum (f : WNet → Nat) :
    ∀ (l : List WNet) (i : Nat), i < l.length →
      ((l.take i).map f).sum + f (l.getD i ⟨[], []⟩) ≤ (l.map f).sum := by
  intro l
  induction l with
  | nil => intro i hi; simp at hi
  | cons x t ih =>
    intro i hi
    cases i with
    | zero => simp
    | succ i =>
      have hi' : i < t.length := by simpa using hi
      have := ih i hi'
      simp only [List.take_succ_cons, List.map_cons, List.sum_cons,
        List.getD_cons_succ]
      omega

/--
C10: after `view_direct_wire_nets`, the wire and vertex buffers are mutually
consistent: the output nets are in order with each net's `wireOffset` and
`vertexOffset` equal to the total wires/vertices emitted for the preceding
nets, the wire and vertex buffers are the concatenation of the per-net
emissions, the sum of `vertexCount` over a net's wires equals the number of
vertices appended for that net, and a consumer advancing through the vertex
buffer by each wire's `vertexCount` never reads past the vertices written.
-/
theorem view_direct_wire_nets_offsets (c : WCircuit) (i : Nat)
    (hi : i < c.nets.length) :
    (view_direct_wire_nets c).1.length = c.nets.length ∧
    (view_direct_wire_nets c).2.1 =
      (c.nets.map (fun n => (view_direct_wire_net c n).1)).flatten ∧
    (view_direct_wire_nets c).2.2 =
      (c.nets.map (fun n => (view_direct_wire_net c n).2)).flatten ∧
    (view_direct_wire_nets c).1[i]? =
      some ⟨nets_wires_before c i, nets_verts_before c i,
            (view_direct_wire_net c (c.nets.getD i ⟨[], []⟩)).1.length⟩ ∧
    wires_vertex_total (view_direct_wire_net c (c.nets.getD i ⟨[], []⟩)).1 =
      (view_direct_wire_net c (c.nets.getD i ⟨[], []⟩)).2.length ∧
    nets_verts_before c i +
        (view_direct_wire_net c (c.nets.getD i ⟨[], []⟩)).2.length ≤
      (view_direct_wire_nets c).2.2.length := by
  refine ⟨view_direct_wire_nets_go_len c c.nets 0 0,
    view_direct_wire_nets_go_wires c c.nets 0 0,
    view_direct_wire_nets_go_verts c c.nets 0 0, ?_, ?_, ?_⟩
  · have := view_direct_wire_nets_go_getElem c c.nets 0 0 i hi
    simpa [view_direct_wire_nets, nets_wires_before, nets_verts_before]
      using this
  · exact view_direct_wire_net_vertex_total c (c.nets.getD i ⟨[], []⟩)
  · have htotal : (view_direct_wire_nets c).2.2.length =
        (c.nets.map (fun n => (view_direct_wire_net c n).2.length)).sum := by
      rw [show (view_direct_wire_nets c).2.2 =
          (c.nets.map (fun n => (view_direct_wire_net c n).2)).flatten from
        view_direct_wire_nets_go_verts c c.nets 0 0]
      rw [List.length_flatten, List.map_map]
      rfl
    rw [htotal]
    exact prefix_getD_le_sum (fun n => (view_direct_wire_net c n).2.length)
      c.nets i hi

/-- Witness for C10 at a concrete two-net circuit. -/
theorem view_direct_wire_nets_offsets_witness :
    (view_direct_wire_nets
        ⟨[], [], [⟨[⟨0, 0⟩, ⟨1, 1⟩], []⟩, ⟨[⟨2, 2⟩, ⟨3, 3⟩], []⟩]⟩).1[1]? =
      some ⟨1, 2, 1⟩ ∧
    nets_verts_before
        ⟨[], [], [⟨[⟨0, 0⟩, ⟨1, 1⟩], []⟩, ⟨[⟨2, 2⟩, ⟨3, 3⟩], []⟩]⟩ 1 +
        (view_direct_wire_net
          ⟨[], [], [⟨[⟨0, 0⟩, ⟨1, 1⟩], []⟩, ⟨[⟨2, 2⟩, ⟨3, 3⟩], []⟩]⟩
          ⟨[⟨2, 2⟩, ⟨3, 3⟩], []⟩).2.length ≤
      (view_direct_wire_nets
        ⟨[], [], [⟨[⟨0, 0⟩, ⟨1, 1⟩], []⟩, ⟨[⟨2, 2⟩, ⟨3, 3⟩], []⟩]⟩).2.2.length := by
  have h := view_direct_wire_nets_offsets
    ⟨[], [], [⟨[⟨0, 0⟩, ⟨1, 1⟩], []⟩, ⟨[⟨2, 2⟩, ⟨3, 3⟩], []⟩]⟩ 1 (by decide)
  refine ⟨?_, ?_⟩
  · rw [h.2.2.2.1]
    decide
  · simpa using h.2.2.2.2.2

/-- The input-port count of `view_augment_component` (view.c lines 72-80):
ports whose descriptor direction is `PORT_IN`.  A direction is modelled as
`Bool` (`true` = input), since the code only distinguishes `PORT_IN` from
everything else. -/
def count_input_ports (dirs : List Bool) : Nat :=
  (dirs.filter (fun d => d)).length

/-- The output-port count of `view_augment_component` (view.c lines 72-80):
ports whose direction is not `PORT_IN`. -/
def count_output_ports (dirs : List Bool) : Nat :=
  (dirs.filter (fun d => !d)).length

/-- The height computation of `view_augment_component` (view.c lines 98-100):
`fmaxf(numInputPorts, numOutputPorts) * portSpacing + portSpacing`. -/
def component_height (portSpacing : ℚ) (numInputPorts numOutputPorts : Nat) :
    ℚ :=
  max (numInputPorts : ℚ) (numOutputPorts : ℚ) * portSpacing + portSpacing

/-- The port-placement loop of `view_augment_component` (view.c lines
135-165): inputs go down the left edge advancing `leftY` by `leftInc`,
outputs down the right edge advancing `rightY` by `rightInc`, each inset by
half the border width. -/
def port_positions_go (width borderWidth leftInc rightInc : ℚ) :
    List Bool → ℚ → ℚ → List Vec2
  | [], _, _ => []
  | d :: rest, leftY, rightY =>
    if d then
      HMM_V2 (-(width / 2) + borderWidth / 2) leftY ::
        port_positions_go width borderWidth leftInc rightInc rest
          (leftY + leftInc) rightY
    else
      HMM_V2 (width / 2 - borderWidth / 2) rightY ::
        port_positions_go width borderWidth leftInc rightInc rest
          leftY (rightY + rightInc)

/-- The port-position part of `view_augment_component` (view.c lines
129-165): `leftInc = height/(numInputPorts+1)`, `rightInc =
height/(numOutputPorts+1)`, starting at `inc - height/2`. -/
def view_augment_component_ports (dirs : List Bool)
    (width height borderWidth : ℚ) : List Vec2 :=
  let numInputPorts := count_input_ports dirs
  let numOutputPorts := count_output_ports dirs
  let leftInc := height / ((numInputPorts : ℚ) + 1)
  let rightInc := height / ((numOutputPorts : ℚ) + 1)
  port_positions_go width borderWidth leftInc rightInc dirs
    (leftInc - height / 2) (rightInc - height / 2)

theorem count_input_replicate_false (N : Nat) :
    count_input_ports (List.replicate N false) = 0 := by
  induction N with
  | zero => rfl
  | succ n ih => simp [count_input_ports, List.replicate_succ]

theorem count_output_replicate_false (N : Nat) :
    count_output_ports (List.replicate N false) = N := by
  induction N with
  | zero => rfl
  | succ n ih => simp [count_output_ports, List.replicate_succ, ih]

theorem port_positions_go_replicate (w bw li ri : ℚ) :
    ∀ (n : Nat) (ly ry : ℚ),
      port_positions_go w bw li ri (List.replicate n false) ly ry =
        (List.range n).map
          (fun k : Nat => HMM_V2 (w / 2 - bw / 2) (ry + (k : ℚ) * ri)) := by
  intro n
  induction n with
  | zero => intro ly ry; rfl
  | succ n ih =>
    intro ly ry
    rw [List.replicate_succ]
    show HMM_V2 (w / 2 - bw / 2) ry ::
        port_positions_go w bw li ri (List.replicate n false) ly (ry + ri) = _
    rw [ih, List.range_succ_eq_map, List.map_cons, List.map_map]
    congr 1
    · simp [HMM_V2]
    · apply List.map_congr_left
      intro k _
      simp only [Function.comp_apply, HMM_V2, Vec2.mk.injEq, true_and]
      push_cast
      ring

/--
C4: for a component with zero input ports and `N > 0` output ports, the
layout divides only by the port counts plus one (both positive, so no
division by zero), computes `height = N * portSpacing + portSpacing` from
the output count alone, and places all `N` ports on the right edge at
`x = width/2 - borderWidth/2` with `y = k * height/(N+1) - height/2` for
`k = 1..N`.
-/
theorem view_augment_zero_inputs (portSpacing width borderWidth : ℚ)
    (N : Nat) (hN : 0 < N) :
    count_input_ports (List.replicate N false) = 0 ∧
    count_output_ports (List.replicate N false) = N ∧
    (0 : ℚ) < (count_input_ports (List.replicate N false) : ℚ) + 1 ∧
    (0 : ℚ) < (count_output_ports (List.replicate N false) : ℚ) + 1 ∧
    component_height portSpacing (count_input_ports (List.replicate N false))
        (count_output_ports (List.replicate N false)) =
      (N : ℚ) * portSpacing + portSpacing ∧
    (view_augment_component_ports (List.replicate N false) width
        (component_height portSpacing 0 N) borderWidth).length = N ∧
    (∀ k, k < N →
      (view_augment_component_ports (List.replicate N false) width
          (component_height portSpacing 0 N) borderWidth)[k]? =
        some (HMM_V2 (width / 2 - borderWidth / 2)
          (((k : ℚ) + 1) *
              (component_height portSpacing 0 N / ((N : ℚ) + 1)) -
            component_height portSpacing 0 N / 2))) := by
  have hin := count_input_replicate_false N
  have hout := count_output_replicate_false N
  have hpos : view_augment_component_ports (List.replicate N false) width
      (component_height portSpacing 0 N) borderWidth =
      (List.range N).map (fun k : Nat =>
        HMM_V2 (width / 2 - borderWidth / 2)
          (component_height portSpacing 0 N / ((N : ℚ) + 1) -
              component_height portSpacing 0 N / 2 +
            (k : ℚ) * (component_height portSpacing 0 N / ((N : ℚ) + 1)))) := by
    unfold view_augment_component_ports
    rw [hin, hout]
    exact port_positions_go_replicate width borderWidth
      (component_height portSpacing 0 N / ((0 : ℚ) + 1))
      (component_height portSpacing 0 N / ((N : ℚ) + 1)) N _ _
  refine ⟨hin, hout, ?_, ?_, ?_, ?_, ?_⟩
  · rw [hin]; norm_num
  · rw [hout]
    positivity
  · rw [hin, hout]
    unfold component_height
    rw [max_eq_right (by positivity)]
  · rw [hpos]
    simp
  · intro k hk
    rw [hpos]
    have hrange : (List.range N)[k]? = some k := List.getElem?_range hk
    rw [List.getElem?_map, hrange]
    show some _ = some _
    congr 1
    simp only [HMM_V2, Vec2.mk.injEq, true_and]
    ring

/-- Witness for C4 at one output port and the default theme values. -/
theorem view_augment_zero_inputs_witness :
    component_height 20 (count_input_ports (List.replicate 1 false))
        (count_output_ports (List.replicate 1 false)) =
      ((1 : Nat) : ℚ) * 20 + 20 ∧
    (view_augment_component_ports (List.replicate 1 false) 55
        (component_height 20 0 1) 1)[0]? =
      some (HMM_V2 (55 / 2 - 1 / 2)
        (((0 : ℚ) + 1) * (component_height 20 0 1 / (((1 : Nat) : ℚ) + 1)) -
          component_height 20 0 1 / 2)) := by
  have h := view_augment_zero_inputs 20 55 1 1 (by decide)
  exact ⟨h.2.2.2.2.1, h.2.2.2.2.2.2 0 (by decide)⟩

end Digilogic
